import Mathlib

/-!
Shallow embedding of the Thalia.de scraper pipeline
(isValidThaliaUrl, scrapeThaliaSafe retry controller, normalizeBookData,
validateBookData, fixBookData, extractAuthorFromText) together with proofs
of the behavioural claims about it.

External capabilities are modelled as explicit inputs:
the URL object produced by the runtime URL parser is an
Option URLParts (none models an unparseable string), one rendering and
extraction attempt (a call of scrapeThalia, the renderer) is a function
from the attempt index to either a book record or a thrown error message,
and the generic date parser (the Date object used as a fallback when the
DD.MM.YYYY pattern does not match) is a function from the raw string to an
optional ISO date string.
-/

namespace ThaliaScraper

/-! ## Basic character and string operations mirroring the JS runtime -/

def isDigitCh (c : Char) : Bool := '0' ≤ c && c ≤ '9'

def isJsWs (c : Char) : Bool :=
  c = ' ' || c = '\t' || c = '\n' || c = '\r' || c = '\x0b' || c = '\x0c'

def jsTrimList (l : List Char) : List Char :=
  ((l.dropWhile isJsWs).reverse.dropWhile isJsWs).reverse

def jsTrim (s : String) : String := String.mk (jsTrimList s.data)

/-- Substring containment over char lists: models the JS String.includes method. -/
def containsSubCl (pat : List Char) : List Char → Bool
  | [] => pat.isEmpty
  | c :: cs => pat.isPrefixOf (c :: cs) || containsSubCl pat cs

def containsSubstr (s pat : String) : Bool := containsSubCl pat.data s.data

def digitsToNat (l : List Char) : ℕ :=
  l.foldl (fun a c => 10 * a + (c.toNat - '0'.toNat)) 0

def foldCaseAscii (c : Char) : Char :=
  if 'A' ≤ c && c ≤ 'Z' then c.toLower else c

def jsToLowerChar (c : Char) : Char :=
  if 'A' ≤ c && c ≤ 'Z' then c.toLower
  else if c = 'Ä' then 'ä' else if c = 'Ö' then 'ö' else if c = 'Ü' then 'ü'
  else if c = 'Ç' then 'ç' else if c = 'É' then 'é' else if c = 'È' then 'è'
  else if c = 'Ñ' then 'ñ' else c

def jsToLower (s : String) : String := String.mk (s.data.map jsToLowerChar)

/-! ## Regex models

The price regex (\d+[,.]\d+), the page count regex \d+ and the date regex
(\d{1,2})\.(\d{1,2})\.(\d{4}) are modelled by leftmost-match scanners.
Greedy digit runs need no backtracking for these patterns: a digit run
followed by a mandatory non-digit separator can never recover by giving
digits back, so maximal munch plus a left-to-right scan of start positions
is exactly the regex semantics. -/

def matchNumAt (l : List Char) : Option (List Char × Char × List Char) :=
  match l with
  | c :: cs =>
    if isDigitCh c then
      let ds := c :: cs.takeWhile isDigitCh
      match cs.dropWhile isDigitCh with
      | sep :: rest2 =>
        if sep = ',' || sep = '.' then
          match rest2.takeWhile isDigitCh with
          | [] => none
          | f :: fs => some (ds, sep, f :: fs)
        else none
      | [] => none
    else none
  | [] => none

def findNumGroup : List Char → Option (List Char × Char × List Char)
  | [] => none
  | c :: cs =>
    match matchNumAt (c :: cs) with
    | some g => some g
    | none => findNumGroup cs

/-- Rational value of an integer digit run and a fraction digit run: the model
of parseFloat applied to the matched digits-separator-digits group after the
decimal comma has been replaced by a dot. -/
def ratOfParts (ds fs : List Char) : ℚ :=
  (digitsToNat ds : ℚ) + (digitsToNat fs : ℚ) / ((10 : ℚ) ^ fs.length)

def takeDigitsN : ℕ → List Char → Option (List Char × List Char)
  | 0, l => some ([], l)
  | _ + 1, [] => none
  | n + 1, c :: cs =>
    if isDigitCh c then
      match takeDigitsN n cs with
      | some (ds, r) => some (c :: ds, r)
      | none => none
    else none

/-- One or two digits followed by a literal dot, greedy (two digits first). -/
def matchDayMonthAt (l : List Char) : Option (List Char × List Char) :=
  match takeDigitsN 2 l with
  | some (ds, '.' :: r) => some (ds, r)
  | _ =>
    match takeDigitsN 1 l with
    | some (ds, '.' :: r) => some (ds, r)
    | _ => none

def matchDateAt (l : List Char) : Option (List Char × List Char × List Char) :=
  match matchDayMonthAt l with
  | none => none
  | some (d, r1) =>
    match matchDayMonthAt r1 with
    | none => none
    | some (m, r2) =>
      match takeDigitsN 4 r2 with
      | some (y, _) => some (d, m, y)
      | none => none

def findDateMatch : List Char → Option (List Char × List Char × List Char)
  | [] => none
  | c :: cs =>
    match matchDateAt (c :: cs) with
    | some g => some g
    | none => findDateMatch cs

def findDigitRun : List Char → Option (List Char)
  | [] => none
  | c :: cs => if isDigitCh c then some (c :: cs.takeWhile isDigitCh) else findDigitRun cs

def pad2 (l : List Char) : List Char :=
  if l.length < 2 then List.replicate (2 - l.length) '0' ++ l else l

def isHexDigitCh (c : Char) : Bool :=
  isDigitCh c || ('a' ≤ c && c ≤ 'f') || ('A' ≤ c && c ≤ 'F')

/-- True iff isNaN(parseInt(s)) holds in JS: after optional whitespace and an
optional sign, the string has no leading decimal digit, where a 0x or 0X
prefix must be followed by a hex digit. -/
def jsParseIntIsNaN (s : String) : Bool :=
  let l1 := s.data.dropWhile isJsWs
  let l2 :=
    match l1 with
    | c :: cs => if c = '+' || c = '-' then cs else l1
    | [] => l1
  match l2 with
  | '0' :: x :: rest =>
    if x = 'x' || x = 'X' then
      match rest with
      | r :: _ => !(isHexDigitCh r)
      | [] => true
    else false
  | c :: _ => !(isDigitCh c)
  | [] => true

/-! ## Data model -/

/-- BookRecord: the canonical output record. String fields default to the
empty string, which also stands for the absent (undefined) JS value; the
only field the code ever sets to null is pageCount, modelled as an
Option String. Derived canonical fields are Options, absent until the
normalizer computes them. -/
structure BookRecord where
  title : String := ""
  subtitle : String := ""
  author : String := ""
  series : String := ""
  seriesNumber : String := ""
  description : String := ""
  format : String := ""
  price : String := ""
  isbn : String := ""
  ean : String := ""
  publisher : String := ""
  publicationDate : String := ""
  language : String := ""
  pageCount : Option String := none
  fileSize : String := ""
  copyProtection : String := ""
  coverUrl : String := ""
  categories : List String := []
  languageCode : String := ""
  priceValue : Option ℚ := none
  publicationDateISO : Option String := none
  pageCountValue : Option ℕ := none
  isbnClean : Option String := none
  eanClean : Option String := none
  validationWarning : Option (List String) := none
deriving DecidableEq

structure ValidationResult where
  isValid : Bool
  missingFields : List String
deriving DecidableEq

def optStrTruthy : Option String → Bool
  | none => false
  | some s => s != ""

/-! ## normalizeBookData

The JS function mutates a copy of the record in five independent blocks
(price, publication date, page count, ISBN and EAN, language); no block
reads a field another block writes, except that the numeric price is parsed
from the price string after the currency suffix has been appended. The
embedding therefore states each block as a field update computed from the
input record. -/

def normPriceRaw (p : String) : String :=
  if p = "" then p else if containsSubstr p "€" then p else p ++ " €"

def normPriceVal (p : String) (old : Option ℚ) : Option ℚ :=
  if p = "" then old
  else
    match findNumGroup (normPriceRaw p).data with
    | some (ds, _, fs) => some (ratOfParts ds fs)
    | none => old

def normDateISO (jsDate : String → Option String) (d : String) (old : Option String) :
    Option String :=
  if d = "" then old
  else
    match findDateMatch d.data with
    | some (dd, mm, yy) => some (String.mk (yy ++ ('-' :: pad2 mm) ++ ('-' :: pad2 dd)))
    | none =>
      match jsDate d with
      | some iso => some iso
      | none => old

def normPageCountVal (pc : Option String) (old : Option ℕ) : Option ℕ :=
  match pc with
  | some s =>
    if s = "" then old
    else
      match findDigitRun s.data with
      | some ds => some (digitsToNat ds)
      | none => old
  | none => old

def cleanIsbn (s : String) : String :=
  String.mk (s.data.filter (fun c => isDigitCh c || c = 'X'))

def cleanEan (s : String) : String := String.mk (s.data.filter isDigitCh)

def normIsbnClean (i : String) (old : Option String) : Option String :=
  if i = "" then old else some (cleanIsbn i)

def normEanClean (e : String) (old : Option String) : Option String :=
  if e = "" then old else some (cleanEan e)

def normLangCode (lang : String) (old : String) : String :=
  if lang = "" then old
  else
    let low := jsToLower lang
    if containsSubstr low "deutsch" then "de"
    else if containsSubstr low "english" || containsSubstr low "englisch" then "en"
    else if containsSubstr low "français" || containsSubstr low "französisch" then "fr"
    else if containsSubstr low "español" || containsSubstr low "spanisch" then "es"
    else if containsSubstr low "italiano" || containsSubstr low "italienisch" then "it"
    else old

def normalizeBookData (jsDate : String → Option String) (b : BookRecord) : BookRecord :=
  { b with
    price := normPriceRaw b.price
    priceValue := normPriceVal b.price b.priceValue
    publicationDateISO := normDateISO jsDate b.publicationDate b.publicationDateISO
    pageCountValue := normPageCountVal b.pageCount b.pageCountValue
    isbnClean := normIsbnClean b.isbn b.isbnClean
    eanClean := normEanClean b.ean b.eanClean
    languageCode := normLangCode b.language b.languageCode }

/-! ## validateBookData -/

def getStrField (b : BookRecord) : String → String
  | "title" => b.title
  | "author" => b.author
  | _ => ""

def requiredFields : List String := ["title", "author"]

def validateBookData (b : BookRecord) : ValidationResult :=
  let missing :=
    requiredFields.filter
      (fun f => getStrField b f == "" || jsTrim (getStrField b f) == "")
  { isValid := missing.length == 0, missingFields := missing }

/-! ## extractAuthorFromText

The five regexes share the capture group
([A-Z][a-zäöüß]+(?: [A-Z][a-zäöüß]+)\x7b1,3\x7d) and carry the i flag, so the
initial-letter class matches any ASCII letter and the word-body class also
matches the uppercase umlauts. Each keyword is matched case-insensitively,
followed by one or more separator characters (whitespace, or additionally a
colon for the autor and author keywords). Greedy matching needs no
backtracking here: a word body is followed by a mandatory space, a
separator run by a mandatory letter, so again maximal munch and a
left-to-right scan give the regex semantics; the bounded repetition takes
as many additional words as possible up to three and fails below one. -/

def isNameStart (c : Char) : Bool := ('A' ≤ c && c ≤ 'Z') || ('a' ≤ c && c ≤ 'z')

def isNameRest (c : Char) : Bool :=
  isNameStart c || c = 'ä' || c = 'ö' || c = 'ü' || c = 'ß' || c = 'Ä' || c = 'Ö' || c = 'Ü'

def matchNameWord (l : List Char) : Option (List Char × List Char) :=
  match l with
  | c :: cs =>
    if isNameStart c then
      match cs.takeWhile isNameRest with
      | [] => none
      | w => some (c :: w, cs.dropWhile isNameRest)
    else none
  | [] => none

def matchSpaceWord (l : List Char) : Option (List Char × List Char) :=
  match l with
  | ' ' :: cs =>
    match matchNameWord cs with
    | some (w, r) => some (' ' :: w, r)
    | none => none
  | _ => none

def matchMoreWords : ℕ → List Char → List Char × List Char × ℕ
  | 0, l => ([], l, 0)
  | n + 1, l =>
    match matchSpaceWord l with
    | some (c, r) =>
      match matchMoreWords n r with
      | (c2, r2, k) => (c ++ c2, r2, k + 1)
    | none => ([], l, 0)

def matchNameGroup (l : List Char) : Option (List Char) :=
  match matchNameWord l with
  | some (w, r) =>
    match matchMoreWords 3 r with
    | (c, _, k) => if k = 0 then none else some (w ++ c)
  | none => none

inductive SepKind where
  | wsPlus
  | colonWs
deriving DecidableEq

def sepPred : SepKind → Char → Bool
  | .wsPlus => isJsWs
  | .colonWs => fun c => c = ':' || isJsWs c

structure AuthorPattern where
  keyword : String
  sep : SepKind

def authorPatterns : List AuthorPattern :=
  [⟨"von", .wsPlus⟩, ⟨"by", .wsPlus⟩, ⟨"autor", .colonWs⟩, ⟨"author", .colonWs⟩,
    ⟨"bestseller-autor", .wsPlus⟩]

def stripKeywordCI : List Char → List Char → Option (List Char)
  | [], l => some l
  | _ :: _, [] => none
  | k :: ks, c :: cs =>
    if foldCaseAscii k = foldCaseAscii c then stripKeywordCI ks cs else none

def matchPatternAt (p : AuthorPattern) (l : List Char) : Option (List Char) :=
  match stripKeywordCI p.keyword.data l with
  | none => none
  | some r1 =>
    match r1.takeWhile (sepPred p.sep) with
    | [] => none
    | _ => matchNameGroup (r1.dropWhile (sepPred p.sep))

def findPatternMatch (p : AuthorPattern) : List Char → Option (List Char)
  | [] => none
  | c :: cs =>
    match matchPatternAt p (c :: cs) with
    | some g => some g
    | none => findPatternMatch p cs

def tryAuthorPatterns : List AuthorPattern → List Char → Option (List Char)
  | [], _ => none
  | p :: ps, t =>
    match findPatternMatch p t with
    | some g => some g
    | none => tryAuthorPatterns ps t

def extractAuthorFromText (text : String) : String :=
  match tryAuthorPatterns authorPatterns text.data with
  | some g => jsTrim (String.mk g)
  | none => ""

/-! ## fixBookData -/

def placeholderCover : String := "https://via.placeholder.com/150x225?text=No+Cover"

def seriesMarker : String := "Ein Fall für Isabelle Bonnet"

def failedDescription : String :=
  "Data extraction failed. Please check the book details on Thalia.de"

/-- The four repairs run in sequence on a copy of the record, but no repair
reads a field an earlier repair writes (the cover repair writes coverUrl,
the page count repair reads and writes pageCount, the language repair reads
language and writes language and languageCode, the author repair reads
author and description and writes author), so the sequence is stated as one
componentwise update computed from the input record. -/
def fixBookData (b : BookRecord) : BookRecord :=
  { b with
    coverUrl :=
      if b.coverUrl == "" || jsTrim b.coverUrl == "" then placeholderCover else b.coverUrl
    pageCount :=
      if optStrTruthy b.pageCount && jsParseIntIsNaN (b.pageCount.getD "") then none
      else b.pageCount
    language := if b.language == "" || jsTrim b.language == "" then "Deutsch" else b.language
    languageCode := if b.language == "" || jsTrim b.language == "" then "de" else b.languageCode
    author :=
      if b.author != "" && containsSubstr b.author seriesMarker then
        if b.description != "" then
          if extractAuthorFromText b.description != "" then extractAuthorFromText b.description
          else "Pierre Martin"
        else "Pierre Martin"
      else b.author }

/-! ## URL classifier and degraded record -/

structure URLParts where
  hostname : String
  pathname : String
deriving DecidableEq

def isValidThaliaUrl : Option URLParts → Bool
  | none => false
  | some u =>
    containsSubstr u.hostname "thalia.de" &&
      (containsSubstr u.pathname "/artikeldetails/" ||
        containsSubstr u.pathname "/shop/home/artikeldetails/")

def degradedTitleChars : List Char → List Char
  | [] => []
  | c :: cs => (if 'A' ≤ c && c ≤ 'Z' then [' ', c] else [c]) ++ degradedTitleChars cs

/-- Title of the degraded record: the final path segment with dashes turned
into spaces, a space inserted before every capital letter, then trimmed. -/
def degradedTitle (seg : String) : String :=
  jsTrim (String.mk (degradedTitleChars (seg.data.map (fun c => if c = '-' then ' ' else c))))

/-- Split on a separator character: models the JS String.split method for a
one-character separator (structural, so proofs can evaluate it). -/
def splitOnCl (sep : Char) : List Char → List (List Char)
  | [] => [[]]
  | c :: cs =>
    if c = sep then [] :: splitOnCl sep cs
    else
      match splitOnCl sep cs with
      | h :: t => (c :: h) :: t
      | [] => [[c]]

def jsStartsWith (s pre : String) : Bool := pre.data.isPrefixOf s.data

def lastSegmentOf (pathname : String) : String :=
  String.mk ((splitOnCl '/' pathname.data).getLastD [])

def degradedRecord (u : URLParts) : BookRecord :=
  let seg := lastSegmentOf u.pathname
  { title := degradedTitle seg
    author := ""
    description := failedDescription
    coverUrl := placeholderCover
    language := "Deutsch"
    languageCode := "de"
    isbn := ""
    ean := if jsStartsWith seg "A" then seg else ""
    publisher := "" }

/-! ## Retry controller (scrapeThaliaSafe) -/

structure SafeOptions where
  maxRetries : ℕ := 3
  retryDelay : ℕ := 5000
  fixData : Bool := true
  normalizeData : Bool := true
  validateData : Bool := true

inductive ScrapeError where
  | invalidURL
  | exhausted (msg : String)

def isErr {ε α : Type} : Except ε α → Bool
  | .error _ => true
  | .ok _ => false

structure LoopState where
  bookData : Option BookRecord := none
  partialData : Option BookRecord := none
  lastError : Option String := none
  rendererCalls : ℕ := 0
  waits : List (ℕ × ℕ) := []

/-- The retry loop: one list element per attempt index. A successful call of
the base scraper records the result as both bookData and partialData and
breaks; a thrown error records lastError and, when attempts remain, a linear
backoff wait of retryDelay times the attempt index. Every iteration invokes
the renderer once. -/
def runLoop (attempts : ℕ → Except String BookRecord) (retryDelay maxRetries : ℕ) :
    List ℕ → LoopState → LoopState
  | [], st => st
  | i :: rest, st =>
    match attempts i with
    | .ok r =>
      { st with
        bookData := some r
        partialData := some r
        rendererCalls := st.rendererCalls + 1 }
    | .error e =>
      let st1 : LoopState :=
        { st with lastError := some e, rendererCalls := st.rendererCalls + 1 }
      let st2 : LoopState :=
        if i < maxRetries then { st1 with waits := st1.waits ++ [(i, retryDelay * i)] } else st1
      runLoop attempts retryDelay maxRetries rest st2

/-- After the loop: fall back to the most recent partial result, then to the
URL-derived degraded record when an error was recorded, and otherwise throw
the exhaustion error. -/
def afterLoop (u : URLParts) (maxRetries : ℕ) (st : LoopState) :
    Except ScrapeError BookRecord :=
  let bd :=
    match st.bookData with
    | none => st.partialData
    | some r => some r
  match bd with
  | some r => .ok r
  | none =>
    match st.lastError with
    | some _ => .ok (degradedRecord u)
    | none =>
      .error (.exhausted ("Failed to scrape book data after " ++ toString maxRetries ++
        " attempts: Unknown error"))

/-- The fix, normalize and validate stages applied after the loop, including
the caller policy of attaching the validation warning and substituting the
Unknown Author sentinel for a missing author. -/
def applyStages (jsDate : String → Option String) (opts : SafeOptions) (r : BookRecord) :
    BookRecord :=
  let r1 := if opts.fixData then fixBookData r else r
  let r2 := if opts.normalizeData then normalizeBookData jsDate r1 else r1
  if opts.validateData then
    let v := validateBookData r2
    if v.isValid then r2
    else
      let r3 := { r2 with validationWarning := some v.missingFields }
      if v.missingFields.contains "author" then { r3 with author := "Unknown Author" } else r3
  else r2

structure SafeResult where
  result : Except ScrapeError BookRecord
  rendererCalls : ℕ
  waits : List (ℕ × ℕ)

def scrapeThaliaSafe (url : Option URLParts) (attempts : ℕ → Except String BookRecord)
    (jsDate : String → Option String) (opts : SafeOptions) : SafeResult :=
  match url with
  | none => { result := .error .invalidURL, rendererCalls := 0, waits := [] }
  | some u =>
    if isValidThaliaUrl (some u) then
      let st := runLoop attempts opts.retryDelay opts.maxRetries
        (List.range' 1 opts.maxRetries) {}
      { result := (afterLoop u opts.maxRetries st).map (applyStages jsDate opts)
        rendererCalls := st.rendererCalls
        waits := st.waits }
    else { result := .error .invalidURL, rendererCalls := 0, waits := [] }

/-! ## Concrete instances used by witnesses and counterexamples -/

def cexUrl : URLParts :=
  { hostname := "www.thalia.de"
    pathname := "/shop/home/artikeldetails/die-mitternachtsbibliothek" }

def badUrl : URLParts := { hostname := "www.amazon.de", pathname := "/dp/B07XYZ1234" }

def sampleBook : BookRecord := { title := "Die Mitternachtsbibliothek", author := "Matt Haig" }

def attemptsAllFail : ℕ → Except String BookRecord := fun _ => .error "network failure"

def attemptsFailThenOk : ℕ → Except String BookRecord :=
  fun i => if i = 1 then .error "boom" else .ok sampleBook

def jsDateNone : String → Option String := fun _ => none

def samplePartialState : LoopState := { partialData := some sampleBook }

def degradedRunResult (u : URLParts) (msg : ℕ → String)
    (jsDate : String → Option String) : Except ScrapeError BookRecord :=
  (scrapeThaliaSafe (some u) (fun i => Except.error (msg i)) jsDate {}).result

/-! ## Helper lemmas -/

theorem getStrField_title (b : BookRecord) : getStrField b "title" = b.title := rfl

theorem getStrField_author (b : BookRecord) : getStrField b "author" = b.author := rfl

theorem jsTrim_empty : jsTrim "" = "" := rfl

theorem append_euro_ne_empty (p : String) : ¬(p ++ " €" = "") := by
  intro h
  have h2 : (p ++ " €").data = ([] : List Char) := by rw [h]
  rw [String.data_append] at h2
  have h3 := List.append_eq_nil.mp h2
  exact absurd h3.2 (by decide)

theorem containsSubCl_append_euro (l : List Char) :
    containsSubCl ['€'] (l ++ [' ', '€']) = true := by
  induction l with
  | nil => decide
  | cons c cs ih => simp [containsSubCl, ih]

theorem containsSubstr_append_euro (p : String) : containsSubstr (p ++ " €") "€" = true := by
  show containsSubCl "€".data ((p ++ " €").data) = true
  rw [String.data_append]
  exact containsSubCl_append_euro p.data

theorem normPriceRaw_idem (p : String) : normPriceRaw (normPriceRaw p) = normPriceRaw p := by
  unfold normPriceRaw
  by_cases h0 : p = ""
  · simp [h0]
  · by_cases hc : containsSubstr p "€" = true
    · simp [h0, hc]
    · simp [h0, hc, append_euro_ne_empty, containsSubstr_append_euro]

theorem normPriceRaw_ne_empty (p : String) (h : ¬(p = "")) : ¬(normPriceRaw p = "") := by
  unfold normPriceRaw
  by_cases hc : containsSubstr p "€" = true
  · simp [h, hc]
  · simp [h, hc, append_euro_ne_empty]

theorem normPriceVal_stab (p : String) (v : Option ℚ) :
    normPriceVal (normPriceRaw p) (normPriceVal p v) = normPriceVal p v := by
  by_cases h0 : p = ""
  · subst h0
    rfl
  · have hne := normPriceRaw_ne_empty p h0
    unfold normPriceVal
    rw [normPriceRaw_idem]
    simp only [h0, hne, if_neg]
    cases hg : findNumGroup (normPriceRaw p).data with
    | none => simp
    | some g => simp

theorem normDateISO_stab (j : String → Option String) (d : String) (o : Option String) :
    normDateISO j d (normDateISO j d o) = normDateISO j d o := by
  unfold normDateISO
  by_cases h : d = ""
  · simp [h]
  · simp only [h, if_neg, if_false]
    cases hA : findDateMatch d.data with
    | some g => simp
    | none =>
      cases hB : j d with
      | some s => simp
      | none => simp

theorem normPageCountVal_stab (pc : Option String) (o : Option ℕ) :
    normPageCountVal pc (normPageCountVal pc o) = normPageCountVal pc o := by
  unfold normPageCountVal
  cases pc with
  | none => rfl
  | some s =>
    by_cases h : s = ""
    · simp [h]
    · simp only [h, if_neg]
      cases hg : findDigitRun s.data with
      | some ds => simp
      | none => simp

theorem normIsbnClean_stab (i : String) (o : Option String) :
    normIsbnClean i (normIsbnClean i o) = normIsbnClean i o := by
  unfold normIsbnClean
  by_cases h : i = "" <;> simp [h]

theorem normEanClean_stab (e : String) (o : Option String) :
    normEanClean e (normEanClean e o) = normEanClean e o := by
  unfold normEanClean
  by_cases h : e = "" <;> simp [h]

theorem normLangCode_stab (lang old : String) :
    normLangCode lang (normLangCode lang old) = normLangCode lang old := by
  unfold normLangCode
  by_cases h : lang = ""
  · simp [h]
  · simp only [h, if_neg, if_false]
    split_ifs <;> rfl

/-- Shared fact: an invalid URL makes the safe scraper return the InvalidURL
error without running the loop. -/
theorem scrapeThaliaSafe_invalid_aux (url : Option URLParts)
    (attempts : ℕ → Except String BookRecord) (jsDate : String → Option String)
    (opts : SafeOptions) (h : isValidThaliaUrl url = false) :
    scrapeThaliaSafe url attempts jsDate opts =
      { result := .error .invalidURL, rendererCalls := 0, waits := [] } := by
  cases url with
  | none => rfl
  | some u =>
    unfold scrapeThaliaSafe
    simp [h]

/-! ## Claim theorems -/

/-- C5. Price normalization: a price of "12,99 €" keeps its raw string and
gets the numeric value 12.99; a price of "12,99" without a currency symbol
is rewritten to "12,99 €" and also gets the numeric value 12.99. -/
theorem normalizeBookData_price_spec (jsDate : String → Option String) :
    (normalizeBookData jsDate { price := "12,99 €" }).price = "12,99 €" ∧
    (normalizeBookData jsDate { price := "12,99 €" }).priceValue = some ((1299 : ℚ) / 100) ∧
    (normalizeBookData jsDate { price := "12,99" }).price = "12,99 €" ∧
    (normalizeBookData jsDate { price := "12,99" }).priceValue = some ((1299 : ℚ) / 100) := by
  refine ⟨?_, ?_, ?_, ?_⟩
  · show normPriceRaw "12,99 €" = "12,99 €"
    decide
  · show normPriceVal "12,99 €" none = some ((1299 : ℚ) / 100)
    have h1 : normPriceVal "12,99 €" none = some (ratOfParts ['1', '2'] ['9', '9']) := rfl
    have d1 : digitsToNat ['1', '2'] = 12 := rfl
    have d2 : digitsToNat ['9', '9'] = 99 := rfl
    rw [h1]
    simp only [ratOfParts, d1, d2, List.length_cons, List.length_nil, Option.some.injEq]
    norm_num
  · show normPriceRaw "12,99" = "12,99 €"
    decide
  · show normPriceVal "12,99" none = some ((1299 : ℚ) / 100)
    have h1 : normPriceVal "12,99" none = some (ratOfParts ['1', '2'] ['9', '9']) := rfl
    have d1 : digitsToNat ['1', '2'] = 12 := rfl
    have d2 : digitsToNat ['9', '9'] = 99 := rfl
    rw [h1]
    simp only [ratOfParts, d1, d2, List.length_cons, List.length_nil, Option.some.injEq]
    norm_num

/-- C4. Normalizer idempotence: applying normalizeBookData to an already
normalized record is a no-op, for every record and every behaviour of the
external generic date parser. -/
theorem normalizeBookData_idempotent (jsDate : String → Option String) (b : BookRecord) :
    normalizeBookData jsDate (normalizeBookData jsDate b) = normalizeBookData jsDate b := by
  unfold normalizeBookData
  simp [BookRecord.mk.injEq, normPriceRaw_idem, normPriceVal_stab, normDateISO_stab,
    normPageCountVal_stab, normIsbnClean_stab, normEanClean_stab, normLangCode_stab]

theorem validateBookData_characterization (b : BookRecord) :
    ((validateBookData b).isValid = true ↔ (jsTrim b.title ≠ "" ∧ jsTrim b.author ≠ "")) ∧
    (validateBookData b).missingFields =
      (if jsTrim b.title = "" then ["title"] else []) ++
        (if jsTrim b.author = "" then ["author"] else []) := by
  have hbt : ¬(jsTrim b.title = "") → ¬(b.title = "") :=
    fun hn h => hn (by rw [h]; exact jsTrim_empty)
  have hba : ¬(jsTrim b.author = "") → ¬(b.author = "") :=
    fun hn h => hn (by rw [h]; exact jsTrim_empty)
  have hmiss : (validateBookData b).missingFields =
      (if jsTrim b.title = "" then ["title"] else []) ++
        (if jsTrim b.author = "" then ["author"] else []) := by
    have hdef : (validateBookData b).missingFields =
        requiredFields.filter
          (fun f => getStrField b f == "" || jsTrim (getStrField b f) == "") := rfl
    rw [hdef]
    by_cases ht : jsTrim b.title = "" <;> by_cases ha : jsTrim b.author = "" <;>
      simp [requiredFields, List.filter_cons, getStrField_title, getStrField_author,
        ht, ha, hbt, hba]
  have hval : (validateBookData b).isValid =
      ((validateBookData b).missingFields.length == 0) := rfl
  refine ⟨?_, hmiss⟩
  rw [hval, hmiss]
  by_cases ht : jsTrim b.title = "" <;> by_cases ha : jsTrim b.author = "" <;>
    simp [ht, ha]

/-- C6. Validator: isValid holds exactly when both title and author are
nonempty after trimming, and missingFields lists exactly the required
fields among title and author that are empty after trimming. The embedded
validator is a pure function of the record, so repeated calls agree and the
record is not modified. -/
theorem validateBookData_spec (b : BookRecord) :
    ((validateBookData b).isValid = true ↔ (jsTrim b.title ≠ "" ∧ jsTrim b.author ≠ "")) ∧
    (validateBookData b).missingFields =
      (if jsTrim b.title = "" then ["title"] else []) ++
        (if jsTrim b.author = "" then ["author"] else []) :=
  validateBookData_characterization b

/-- C9. Series marker author repair: when the author contains the series
marker, fixBookData replaces it with the text-pattern extraction from the
description, falling back to the Pierre Martin sentinel when the
description is absent or yields nothing; otherwise the author is kept. -/
theorem fixBookData_author_spec (b : BookRecord) :
    (fixBookData b).author =
      (if containsSubstr b.author seriesMarker = true then
        if b.description ≠ "" then
          if extractAuthorFromText b.description ≠ "" then extractAuthorFromText b.description
          else "Pierre Martin"
        else "Pierre Martin"
      else b.author) := by
  show (if b.author != "" && containsSubstr b.author seriesMarker then _ else b.author) = _
  by_cases haut : b.author = ""
  · have hc : containsSubstr "" seriesMarker = false := by decide
    simp [haut, hc]
  · have hne : (b.author != "") = true := by simp [bne_iff_ne, haut]
    rw [hne, Bool.true_and]
    cases hc : containsSubstr b.author seriesMarker with
    | false => simp [hc]
    | true =>
      simp only [hc, if_true]
      by_cases hd : b.description = "" <;>
        by_cases he : extractAuthorFromText b.description = "" <;>
          simp [bne_iff_ne, hd, he]

/-- C10. The author regexes carry the i flag, so a fully lowercase name
after the attribution keyword is matched: this description yields the
lowercase name rather than the empty string. -/
theorem extractAuthorFromText_lowercase :
    extractAuthorFromText "Ein Roman von max mustermann." = "max mustermann" := by
  decide

/-- C3. Classifier-first rejection: for every URL the classifier rejects
(wrong host, wrong path shape, or unparseable), the safe scraper returns
the InvalidURL error and the renderer is never invoked. -/
theorem scrapeThaliaSafe_invalid_spec (url : Option URLParts)
    (attempts : ℕ → Except String BookRecord) (jsDate : String → Option String)
    (opts : SafeOptions) (h : isValidThaliaUrl url = false) :
    (scrapeThaliaSafe url attempts jsDate opts).result = .error .invalidURL ∧
    (scrapeThaliaSafe url attempts jsDate opts).rendererCalls = 0 := by
  rw [scrapeThaliaSafe_invalid_aux url attempts jsDate opts h]
  exact ⟨rfl, rfl⟩

/-- Witness for C3 at a concrete malformed URL. -/
theorem scrapeThaliaSafe_invalid_witness :
    (scrapeThaliaSafe (some badUrl) attemptsAllFail jsDateNone {}).result =
      .error .invalidURL ∧
    (scrapeThaliaSafe (some badUrl) attemptsAllFail jsDateNone {}).rendererCalls = 0 :=
  scrapeThaliaSafe_invalid_spec (some badUrl) attemptsAllFail jsDateNone {} (by decide)

theorem isErr_map (f : BookRecord → BookRecord) (x : Except ScrapeError BookRecord) :
    isErr (x.map f) = isErr x := by
  cases x <;> rfl

theorem runLoop_lastError_isSome (attempts : ℕ → Except String BookRecord) (d m : ℕ) :
    ∀ (is : List ℕ) (st : LoopState), st.lastError.isSome = true →
      (runLoop attempts d m is st).lastError.isSome = true := by
  intro is
  induction is with
  | nil =>
    intro st h
    exact h
  | cons i rest ih =>
    intro st h
    unfold runLoop
    cases hA : attempts i with
    | ok r => simpa using h
    | error e =>
      apply ih
      by_cases hi : i < m <;> simp [hi]

theorem runLoop_progress (attempts : ℕ → Except String BookRecord) (d m : ℕ) :
    ∀ (is : List ℕ) (st : LoopState), is ≠ [] →
      (runLoop attempts d m is st).bookData.isSome = true ∨
        (runLoop attempts d m is st).lastError.isSome = true := by
  intro is
  cases is with
  | nil =>
    intro st h
    exact absurd rfl h
  | cons i rest =>
    intro st _
    unfold runLoop
    cases hA : attempts i with
    | ok r =>
      left
      simp
    | error e =>
      right
      apply runLoop_lastError_isSome
      by_cases hi : i < m <;> simp [hi]

theorem afterLoop_isOk (u : URLParts) (m : ℕ) (st : LoopState)
    (h : st.bookData.isSome = true ∨ st.lastError.isSome = true) :
    isErr (afterLoop u m st) = false := by
  unfold afterLoop
  rcases st with ⟨bd, pd, le, rc, ws⟩
  cases bd <;> cases pd <;> cases le <;> simp_all [isErr]

theorem runLoop_waits (attempts : ℕ → Except String BookRecord) (d m : ℕ) :
    ∀ (is : List ℕ) (st : LoopState),
      (runLoop attempts d m is st).waits =
        st.waits ++ ((is.takeWhile (fun i => isErr (attempts i))).filter
          (fun i => decide (i < m))).map (fun i => (i, d * i)) := by
  intro is
  induction is with
  | nil =>
    intro st
    simp [runLoop]
  | cons i rest ih =>
    intro st
    unfold runLoop
    cases hA : attempts i with
    | ok r => simp [isErr, hA]
    | error e =>
      rw [ih]
      by_cases hi : i < m <;> simp [isErr, hA, hi, List.filter_cons]

/-- C2. Total-success contract: with at least one attempt configured, every
URL that passes the classifier yields a record (the result is not an
error), and an error result can only be the InvalidURL rejection. -/
theorem scrapeThaliaSafe_total_spec (url : Option URLParts)
    (attempts : ℕ → Except String BookRecord) (jsDate : String → Option String)
    (opts : SafeOptions) (hmr : 1 ≤ opts.maxRetries) :
    (isValidThaliaUrl url = true →
      isErr (scrapeThaliaSafe url attempts jsDate opts).result = false) ∧
    (isErr (scrapeThaliaSafe url attempts jsDate opts).result = false ∨
      (scrapeThaliaSafe url attempts jsDate opts).result = .error .invalidURL) := by
  have main : isValidThaliaUrl url = true →
      isErr (scrapeThaliaSafe url attempts jsDate opts).result = false := by
    intro hv
    cases url with
    | none => exact absurd hv (by simp [isValidThaliaUrl])
    | some u =>
      have hres : (scrapeThaliaSafe (some u) attempts jsDate opts).result =
          (afterLoop u opts.maxRetries (runLoop attempts opts.retryDelay opts.maxRetries
            (List.range' 1 opts.maxRetries) {})).map (applyStages jsDate opts) := by
        simp [scrapeThaliaSafe, hv]
      rw [hres, isErr_map]
      apply afterLoop_isOk
      apply runLoop_progress
      obtain ⟨k, hk⟩ : ∃ k, opts.maxRetries = k + 1 := ⟨opts.maxRetries - 1, by omega⟩
      rw [hk, List.range'_succ]
      simp
  refine ⟨main, ?_⟩
  cases hv : isValidThaliaUrl url with
  | true => exact Or.inl (main hv)
  | false =>
    right
    rw [scrapeThaliaSafe_invalid_aux url attempts jsDate opts hv]

/-- Witness for C2 at a concrete valid URL with all attempts failing. -/
theorem scrapeThaliaSafe_total_witness :
    isErr (scrapeThaliaSafe (some cexUrl) attemptsAllFail jsDateNone {}).result = false :=
  (scrapeThaliaSafe_total_spec (some cexUrl) attemptsAllFail jsDateNone {}
    (by decide)).1 (by decide)

/-- C8. Linear backoff schedule: for a valid URL the recorded waits are
exactly one entry of retryDelay times the attempt index for every failed
attempt whose index is below maxRetries, in attempt order. -/
theorem scrapeThaliaSafe_backoff_spec (url : Option URLParts)
    (attempts : ℕ → Except String BookRecord) (jsDate : String → Option String)
    (opts : SafeOptions) (hv : isValidThaliaUrl url = true) :
    (scrapeThaliaSafe url attempts jsDate opts).waits =
      (((List.range' 1 opts.maxRetries).takeWhile (fun i => isErr (attempts i))).filter
        (fun i => decide (i < opts.maxRetries))).map (fun i => (i, opts.retryDelay * i)) := by
  cases url with
  | none => exact absurd hv (by simp [isValidThaliaUrl])
  | some u =>
    simp [scrapeThaliaSafe, hv, runLoop_waits]

/-- Witness for C8: all three attempts fail on a valid URL, so the waits are
the two linear backoff delays. -/
theorem scrapeThaliaSafe_backoff_witness :
    (scrapeThaliaSafe (some cexUrl) attemptsAllFail jsDateNone {}).waits =
      (((List.range' 1 (({} : SafeOptions)).maxRetries).takeWhile
          (fun i => isErr (attemptsAllFail i))).filter
        (fun i => decide (i < (({} : SafeOptions)).maxRetries))).map
        (fun i => (i, (({} : SafeOptions)).retryDelay * i)) :=
  scrapeThaliaSafe_backoff_spec (some cexUrl) attemptsAllFail jsDateNone {} (by decide)

/-- C7. Retry with partial-data retention: with maxRetries three, when
attempt one throws and attempt two returns a record, the final result is
that record passed through the fix, normalize and validate stages; and
whenever the loop ends with no final record but a retained partial record,
the controller uses the partial record rather than failing. -/
theorem scrapeThaliaSafe_partial_retention (u : URLParts)
    (attempts : ℕ → Except String BookRecord) (jsDate : String → Option String)
    (opts : SafeOptions) (e : String) (r : BookRecord) (st : LoopState) (p : BookRecord)
    (hvalid : isValidThaliaUrl (some u) = true) (hmr : opts.maxRetries = 3)
    (h1 : attempts 1 = Except.error e) (h2 : attempts 2 = Except.ok r)
    (hb : st.bookData = none) (hp : st.partialData = some p) :
    (scrapeThaliaSafe (some u) attempts jsDate opts).result =
      Except.ok (applyStages jsDate opts r) ∧
    afterLoop u opts.maxRetries st = Except.ok p := by
  constructor
  · have hrange : List.range' 1 opts.maxRetries = [1, 2, 3] := by
      rw [hmr]
      rfl
    simp [scrapeThaliaSafe, hvalid, hrange, runLoop, h1, h2, afterLoop, Except.map]
  · unfold afterLoop
    rw [hb, hp]

/-- Witness for C7 at concrete inputs. -/
theorem scrapeThaliaSafe_partial_retention_witness :
    (scrapeThaliaSafe (some cexUrl) attemptsFailThenOk jsDateNone {}).result =
      Except.ok (applyStages jsDateNone {} sampleBook) ∧
    afterLoop cexUrl ({} : SafeOptions).maxRetries samplePartialState =
      Except.ok sampleBook :=
  scrapeThaliaSafe_partial_retention cexUrl attemptsFailThenOk jsDateNone {} "boom"
    sampleBook samplePartialState sampleBook (by decide) rfl rfl rfl rfl rfl

/-- C1 counterexample: at the URL ending in
artikeldetails, die-mitternachtsbibliothek, with every attempt throwing,
the degraded record title is the lowercase "die mitternachtsbibliothek";
the synthesis applies no title-casing, so the claimed title
"Die Mitternachtsbibliothek" is not produced. -/
theorem scrapeThaliaSafe_degraded_cex :
    (scrapeThaliaSafe (some cexUrl) attemptsAllFail jsDateNone {}).result.toOption.map
        BookRecord.title = some "die mitternachtsbibliothek" ∧
    ¬((scrapeThaliaSafe (some cexUrl) attemptsAllFail jsDateNone {}).result.toOption.map
        BookRecord.title = some "Die Mitternachtsbibliothek") := by
  constructor
  · decide
  · decide

/-- C1 amended: for every structurally valid URL, when every attempt throws,
the result record has as title the final path segment with dashes replaced
by spaces and a space inserted before every capital letter, trimmed, with
the original casing preserved; the placeholder cover; the sentinel failure
description; empty isbn and publisher; language defaulted to Deutsch; ean
equal to the segment exactly when the segment starts with A; and, the
synthesized author being empty, the default validation stage substitutes
the Unknown Author sentinel. -/
theorem scrapeThaliaSafe_degraded_amended (u : URLParts) (msg : ℕ → String)
    (jsDate : String → Option String) (hvalid : isValidThaliaUrl (some u) = true) :
    (degradedRunResult u msg jsDate).toOption.map BookRecord.title =
      some (degradedTitle (lastSegmentOf u.pathname)) ∧
    (degradedRunResult u msg jsDate).toOption.map BookRecord.coverUrl =
      some placeholderCover ∧
    (degradedRunResult u msg jsDate).toOption.map BookRecord.description =
      some failedDescription ∧
    (degradedRunResult u msg jsDate).toOption.map BookRecord.author =
      some "Unknown Author" ∧
    (degradedRunResult u msg jsDate).toOption.map BookRecord.isbn = some "" ∧
    (degradedRunResult u msg jsDate).toOption.map BookRecord.publisher = some "" ∧
    (degradedRunResult u msg jsDate).toOption.map BookRecord.language = some "Deutsch" ∧
    (degradedRunResult u msg jsDate).toOption.map BookRecord.ean =
      some (if jsStartsWith (lastSegmentOf u.pathname) "A" then lastSegmentOf u.pathname
        else "") := by
  have hres : degradedRunResult u msg jsDate =
      Except.ok (applyStages jsDate {} (degradedRecord u)) := by
    unfold degradedRunResult
    have hrange : List.range' 1 (({} : SafeOptions)).maxRetries = [1, 2, 3] := rfl
    simp [scrapeThaliaSafe, hvalid, hrange, runLoop, afterLoop, Except.map]
  have hfix : fixBookData (degradedRecord u) = degradedRecord u := by
    unfold fixBookData degradedRecord
    simp
  have hauth : (normalizeBookData jsDate (degradedRecord u)).author = "" := rfl
  have hinvalid :
      (validateBookData (normalizeBookData jsDate (degradedRecord u))).isValid = false := by
    cases hiv : (validateBookData (normalizeBookData jsDate (degradedRecord u))).isValid with
    | false => rfl
    | true =>
      have h2 :=
        ((validateBookData_characterization (normalizeBookData jsDate (degradedRecord u))).1).mp hiv
      rw [hauth] at h2
      exact absurd rfl h2.2
  have hmiss :
      (validateBookData (normalizeBookData jsDate (degradedRecord u))).missingFields =
        (if jsTrim (normalizeBookData jsDate (degradedRecord u)).title = "" then ["title"]
          else []) ++ ["author"] := by
    have h2 := (validateBookData_characterization (normalizeBookData jsDate (degradedRecord u))).2
    rw [hauth] at h2
    simpa [jsTrim_empty] using h2
  have hmem :
      "author" ∈ (validateBookData (normalizeBookData jsDate (degradedRecord u))).missingFields := by
    rw [hmiss]
    by_cases ht : jsTrim (normalizeBookData jsDate (degradedRecord u)).title = "" <;>
      simp [ht]
  have happ : applyStages jsDate {} (degradedRecord u) =
      { normalizeBookData jsDate (degradedRecord u) with
        validationWarning :=
          some (validateBookData (normalizeBookData jsDate (degradedRecord u))).missingFields
        author := "Unknown Author" } := by
    unfold applyStages
    simp [hfix, hinvalid, hmem, BookRecord.mk.injEq]
  rw [hres, happ]
  exact ⟨rfl, rfl, rfl, rfl, rfl, rfl, rfl, rfl⟩

/-- Witness for C1 amended at the concrete URL of the claim. -/
theorem scrapeThaliaSafe_degraded_amended_witness :
    (degradedRunResult cexUrl (fun _ => "network failure") jsDateNone).toOption.map
        BookRecord.title = some (degradedTitle (lastSegmentOf cexUrl.pathname)) ∧
    (degradedRunResult cexUrl (fun _ => "network failure") jsDateNone).toOption.map
        BookRecord.coverUrl = some placeholderCover ∧
    (degradedRunResult cexUrl (fun _ => "network failure") jsDateNone).toOption.map
        BookRecord.description = some failedDescription ∧
    (degradedRunResult cexUrl (fun _ => "network failure") jsDateNone).toOption.map
        BookRecord.author = some "Unknown Author" ∧
    (degradedRunResult cexUrl (fun _ => "network failure") jsDateNone).toOption.map
        BookRecord.isbn = some "" ∧
    (degradedRunResult cexUrl (fun _ => "network failure") jsDateNone).toOption.map
        BookRecord.publisher = some "" ∧
    (degradedRunResult cexUrl (fun _ => "network failure") jsDateNone).toOption.map
        BookRecord.language = some "Deutsch" ∧
    (degradedRunResult cexUrl (fun _ => "network failure") jsDateNone).toOption.map
        BookRecord.ean =
      some (if jsStartsWith (lastSegmentOf cexUrl.pathname) "A" then
          lastSegmentOf cexUrl.pathname
        else "") :=
  scrapeThaliaSafe_degraded_amended cexUrl (fun _ => "network failure") jsDateNone
    (by decide)

end ThaliaScraper
